import Mathlib

/-!
Shallow embedding of the ai-news-daily curation pipeline
(`fetch_news.py`, `scheduler_loop.py`) and proofs about it.

Conventions of the embedding:
* Python strings are Lean `String`s; character-level regex operations work
  on `List Char`.
* A publication instant (the result of `parse_pub_date`) is an
  `Option Int`: `some t` is a UTC timestamp in seconds, `none` means no
  date field parsed.  The article's serialized `pub_dt` field is the ISO
  UTC string of that instant, or the empty string; since ISO UTC strings
  compare lexicographically in timestamp order and the empty string is
  lexicographically least, the string sort key is embedded as the
  `Option Int` order with `none` as bottom.
* Filesystem and network effects are passed explicitly: feed fetching
  yields per-feed entry lists, backend invocation is a function argument,
  `save_data` returns its list of (path, content) writes, `load_history`
  takes the globbed directory listing as a list of (name, parse result).
-/

set_option maxRecDepth 16384

namespace AINews

/-- Python substring containment (`pat in s`), on character lists. -/
def pyContains (pat : List Char) : List Char → Bool
  | [] => pat.isPrefixOf []
  | c :: cs => pat.isPrefixOf (c :: cs) || pyContains pat cs

/-- The characters matched by the regex whitespace class. -/
def isPySpace (c : Char) : Bool :=
  c = ' ' || c = '\t' || c = '\n' || c = '\r' || c = '\x0b' || c = '\x0c'

/-- Structural worker for `subDelWs`.  Every recursive call consumes at
least one character of the text, so a fuel equal to the text length makes
the fuel-exhaustion branch unreachable; fuel keeps the recursion
structural so proofs can evaluate it. -/
def subDelWsAux (pat : List Char) : Nat → List Char → List Char
  | _, [] => []
  | 0, cs => cs
  | fuel + 1, c :: cs =>
    if pat ≠ [] ∧ pat.isPrefixOf (c :: cs) then
      subDelWsAux pat fuel (((c :: cs).drop pat.length).dropWhile isPySpace)
    else
      c :: subDelWsAux pat fuel cs

/-- `re.sub` deleting every non-overlapping occurrence of the literal
`pat` followed by greedy whitespace (the fence-stripping substitutions in
`summarize_with_gemini`). -/
def subDelWs (pat : List Char) (cs : List Char) : List Char :=
  subDelWsAux pat cs.length cs

/-- Structural worker for `stripTagsAux`, fuelled like `subDelWsAux`. -/
def stripTagsFuel : Nat → List Char → List Char
  | _, [] => []
  | 0, cs => cs
  | fuel + 1, c :: cs =>
    if c = '<' then
      let n := (cs.takeWhile (fun d => d ≠ '>')).length
      if 1 ≤ n ∧ n < cs.length then
        stripTagsFuel fuel (cs.drop (n + 1))
      else
        c :: stripTagsFuel fuel cs
    else
      c :: stripTagsFuel fuel cs

/-- `re.sub` deleting every markup-tag span (an opening angle bracket, at
least one non-closing character, a closing angle bracket), as applied to
entry summaries in `fetch_articles`. -/
def stripTagsAux (cs : List Char) : List Char := stripTagsFuel cs.length cs

/-- `re.sub(r"<[^>]+>", "", s)` on a string. -/
def strip_tags (s : String) : String := ⟨stripTagsAux s.data⟩

/-- Python `str.lower()` (character-wise lowering; the keywords and quota
signatures involved are ASCII, where the two agree). -/
def pyLower (s : String) : String := ⟨s.data.map Char.toLower⟩

/-- Python slicing `s[:n]`: the first `n` characters. -/
def pyTake (s : String) (n : Nat) : String := ⟨s.data.take n⟩

/-- The fixed keyword vocabulary `AI_KEYWORDS`. -/
def AI_KEYWORDS : List String :=
  ["AI", "artificial intelligence", "machine learning", "deep learning",
   "LLM", "large language model", "GPT", "ChatGPT", "Claude", "Gemini",
   "OpenAI", "Anthropic", "Google DeepMind", "Meta AI", "Microsoft AI",
   "neural network", "generative AI", "foundation model", "AGI",
   "robotics", "autonomous", "computer vision", "natural language",
   "Nvidia", "GPU", "semiconductor", "chip", "data center"]

/-- `is_ai_related`: case-insensitive substring match of any keyword
against title plus summary. -/
def is_ai_related (title : String) (summary : String) : Bool :=
  let text := pyLower (title ++ " " ++ summary)
  AI_KEYWORDS.any (fun kw => pyContains (pyLower kw).data text.data)

/-- A parsed feed entry as consumed by `fetch_articles`.  `pubDate` embeds
the outcome of `parse_pub_date` (UTC instant, or `none` when no date field
parses); `link` is `none` when the feed item has no link field. -/
structure Entry where
  title : String
  summary : String
  link : Option String
  pubDate : Option Int
deriving DecidableEq, Repr

/-- A collected article.  The display-only `published` string is not
modeled; `pubDt` embeds the `pub_dt` field (ISO UTC string, empty when the
instant is unknown). -/
structure Article where
  source : String
  title : String
  url : String
  summary : String
  pubDt : Option Int
deriving DecidableEq, Repr

/-- `MAX_ARTICLE_AGE_HOURS = 24`. -/
def MAX_ARTICLE_AGE_HOURS : Int := 24

/-- The freshness guard `if pub_dt and pub_dt < cutoff` of the entry loop:
true exactly when the entry is skipped as too old. -/
def fresh_skip (cutoff : Int) (e : Entry) : Bool :=
  match e.pubDate with
  | some d => decide (d < cutoff)
  | none => false

/-- The per-feed entry loop of `fetch_articles`: skip entries older than
the cutoff, keep keyword-relevant entries, stop after `maxPerFeed`
accepted entries. -/
def process_entries (feedName : String) (cutoff : Int) (maxPerFeed : Nat) :
    List Entry → Nat → List Article
  | [], _ => []
  | e :: rest, count =>
    if maxPerFeed ≤ count then []
    else
      let summary_clean := pyTake (strip_tags e.summary) 500
      if fresh_skip cutoff e then
        process_entries feedName cutoff maxPerFeed rest count
      else if is_ai_related e.title summary_clean then
        { source := feedName, title := e.title, url := e.link.getD "",
          summary := summary_clean, pubDt := e.pubDate } ::
          process_entries feedName cutoff maxPerFeed rest (count + 1)
      else
        process_entries feedName cutoff maxPerFeed rest count

/-- The collection phase of `fetch_articles`: all feeds processed in
registry order, accepted articles concatenated in source-processing
order.  (A feed whose fetch raised is simply absent from `feeds`.) -/
def collect_articles (now : Int) (maxPerFeed : Nat)
    (feeds : List (String × List Entry)) : List Article :=
  let cutoff := now - MAX_ARTICLE_AGE_HOURS * 3600
  (feeds.map (fun f => process_entries f.1 cutoff maxPerFeed f.2 0)).flatten

/-- URL deduplication with a `seen` set: first occurrence wins. -/
def dedup_aux (seen : List String) : List Article → List Article
  | [] => []
  | a :: rest =>
    if a.url ∈ seen then dedup_aux seen rest
    else a :: dedup_aux (a.url :: seen) rest

/-- Order on the sort key `a.get("pub_dt", "")`: the empty string (unknown
instant) is least; known instants compare chronologically. -/
def key_le : Option Int → Option Int → Bool
  | none, _ => true
  | some _, none => false
  | some x, some y => decide (x ≤ y)

/-- `fetch_articles`: collect, deduplicate by url (first wins), then sort
by publication key descending (`reverse=True` over the `pub_dt` string). -/
def fetch_articles (now : Int) (maxPerFeed : Nat)
    (feeds : List (String × List Entry)) : List Article :=
  let unique := dedup_aux [] (collect_articles now maxPerFeed feeds)
  unique.mergeSort (fun a b => key_le b.pubDt a.pubDt)

/-! ### Summarization orchestrator (`summarize_with_gemini`) -/

/-- The open-brace character. -/
def obr : Char := Char.ofNat 123

/-- The close-brace character. -/
def cbr : Char := Char.ofNat 125

/-- The greedy `re.search` for an open brace, any characters, a close
brace: the leftmost match runs from the first open brace to the last
close brace of the whole text (the quantifier is greedy, so it backtracks
only to the final close brace), or no match when no close brace follows
the first open brace. -/
def regex_brace_match (cs : List Char) : Option (List Char) :=
  match cs.dropWhile (fun c => c ≠ obr) with
  | [] => none
  | c :: tail =>
    let upto := (tail.reverse.dropWhile (fun c => c ≠ cbr)).reverse
    if upto = [] then none else some (c :: upto)

/-- The two fence-stripping substitutions applied to the backend response
text before the brace search. -/
def strip_fences (cs : List Char) : List Char :=
  subDelWs "```".data (subDelWs "```json".data cs)

/-- The full extraction step: strip fences, then the greedy brace search. -/
def extract_json_span (cs : List Char) : Option (List Char) :=
  regex_brace_match (strip_fences cs)

/-- Helper for `spec_first_balanced`: consume characters tracking brace
depth, returning the accumulated span at the close that balances the
initial open brace. -/
def first_balanced_aux : List Char → Nat → List Char → Option (List Char)
  | [], _, _ => none
  | c :: rest, depth, acc =>
    if c = obr then first_balanced_aux rest (depth + 1) (c :: acc)
    else if c = cbr then
      if depth = 1 then some (c :: acc).reverse
      else first_balanced_aux rest (depth - 1) (c :: acc)
    else first_balanced_aux rest depth (c :: acc)

/-- Modelled from the spec: "locate the first balanced JSON object in the
text" — the span from the first open brace to its matching close brace.
This definition follows the spec's words and exists only to be compared
with the code's `regex_brace_match`. -/
def spec_first_balanced (cs : List Char) : Option (List Char) :=
  match cs.dropWhile (fun c => c ≠ obr) with
  | [] => none
  | c :: rest => first_balanced_aux rest 1 [c]

/-- Brace-balance check: after an initial open brace, the matching close
brace is exactly the last character of the span. -/
def bal_check : List Char → Nat → Bool
  | [], _ => false
  | c :: rest, depth =>
    if c = obr then bal_check rest (depth + 1)
    else if c = cbr then
      (if depth = 1 then rest.isEmpty else bal_check rest (depth - 1))
    else bal_check rest depth

/-- A span that is a single brace-balanced object: starts with an open
brace and its matching close brace is the final character.  Any text that
a JSON parser accepts as one object whose string literals contain no brace
characters is balanced in this sense. -/
def is_balanced_object (cs : List Char) : Bool :=
  match cs with
  | [] => false
  | c :: rest => c = obr && bal_check rest 1

/-- One entry of the structured summary's top-article list. -/
structure TopArticle where
  rank : Nat
  title : String
  source : String
  url : String
  point : String
deriving DecidableEq, Repr

/-- The sentiment triple of the structured summary. -/
structure Sentiment where
  positive : String
  negative : String
  neutral : String
deriving DecidableEq, Repr

/-- The structured summary dictionary.  `joho_picks` (added by the
fallback as an empty list, and by `main` after commentary generation) is
kept abstract as a list of strings. -/
structure Summary where
  news_summary : String
  opinion_summary : String
  sentiment : Sentiment
  top_articles : List TopArticle
  joho_picks : List String
deriving DecidableEq, Repr

/-- The `enumerate(top, 1)` loop of `_dummy_summary`: rank `i`, truncated
summary plus ellipsis as the point. -/
def dummy_top_articles : Nat → List Article → List TopArticle
  | _, [] => []
  | i, a :: rest =>
    { rank := i, title := a.title, source := a.source, url := a.url,
      point := pyTake a.summary 50 ++ "..." } :: dummy_top_articles (i + 1) rest

/-- `_dummy_summary`: the deterministic fallback, with fixed placeholder
text and the first ten ranked articles. -/
def dummy_summary (articles : List Article) : Summary :=
  let top := articles.take 10
  { news_summary := "【テストモード】APIキーが設定されていないため、実際の要約は生成されていません。GEMINI_API_KEY環境変数を設定してください。収集された記事のタイトルのみ表示しています。",
    opinion_summary := "【テストモード】メディアの意見分析はAPIキーが必要です。実際の運用時はGemini APIキーを設定することで、ポジティブ・ネガティブ・中立の意見分析が自動生成されます。",
    sentiment := { positive := "APIキー設定後に自動生成されます",
                   negative := "APIキー設定後に自動生成されます",
                   neutral := "APIキー設定後に自動生成されます" },
    top_articles := dummy_top_articles 1 top,
    joho_picks := [] }

/-- The fixed candidate list `models_to_try`. -/
def models_to_try : List String :=
  ["gemini-2.0-flash", "gemini-2.0-flash-lite", "gemini-2.5-flash",
   "gemini-flash-lite-latest"]

/-- The failure classification: `"429" in err_str or "quota" in
err_str.lower()`. -/
def is_quota_error (msg : String) : Bool :=
  pyContains "429".data msg.data || pyContains "quota".data (pyLower msg).data

/-- One candidate attempt: the body of the `try` block.  `call` abstracts
`generate_content` plus `.text` (an exception becomes `error` carrying its
string rendering); `decode` abstracts `json.loads` on the extracted span
(a parse exception likewise becomes `error`); a missing brace match raises
the fixed `ValueError` message. -/
def attempt_model (call : String → Except String String)
    (decode : String → Except String Summary) (model : String) :
    Except String Summary :=
  match call model with
  | .error msg => .error msg
  | .ok text =>
    match extract_json_span text.data with
    | some js => decode (String.mk js)
    | none => .error "JSONが見つかりません"

/-- The candidate loop over `models_to_try`.  The first component is the
returned value (`none` when the loop aborted or was exhausted); the second
records which candidates were invoked, in order, for the statements about
candidates never being tried. -/
def try_models (att : String → Except String Summary) :
    List String → Option Summary × List String
  | [] => (none, [])
  | m :: rest =>
    match att m with
    | .ok r => (some r, [m])
    | .error msg =>
      if is_quota_error msg then
        let next := try_models att rest
        (next.1, m :: next.2)
      else (none, [m])

/-- `summarize_with_gemini`: empty API key goes straight to the fallback;
otherwise the candidate loop's value, or the fallback when it yields
none. -/
def summarize_with_gemini (apiKey : String)
    (call : String → Except String String)
    (decode : String → Except String Summary)
    (articles : List Article) : Summary :=
  if apiKey = "" then dummy_summary articles
  else
    match (try_models (attempt_model call decode) models_to_try).1 with
    | some r => r
    | none => dummy_summary articles

/-! ### Persistence (`save_data`, `load_history`) -/

/-- `get_time_slot` on the current JST hour. -/
def get_time_slot (hour : Nat) : String :=
  if 5 ≤ hour ∧ hour < 11 then "朝"
  else if 11 ≤ hour ∧ hour < 15 then "昼"
  else if 15 ≤ hour ∧ hour < 18 then "夕方"
  else "夜"

/-- The dictionary `save_data` serializes. -/
structure RunData where
  timestamp : String
  time_slot : String
  summary : Summary
  raw_articles : List Article

/-- `save_data`, as the ordered list of (file name, content) writes it
performs inside the data directory.  `dumps` abstracts `json.dump` with
the fixed options; `nowIso` and `stamp` are the isoformat and strftime
renderings of the same JST now, whose hour is `hour`. -/
def save_data (dumps : RunData → String) (nowIso stamp : String) (hour : Nat)
    (summary : Summary) (articles : List Article) : List (String × String) :=
  let data : RunData := { timestamp := nowIso, time_slot := get_time_slot hour,
                          summary := summary, raw_articles := articles.take 15 }
  [("news_" ++ stamp ++ ".json", dumps data), ("latest.json", dumps data)]

/-- Lexicographic strict order on character lists, by code point: how
Python orders the snapshot file names. -/
def charsLt : List Char → List Char → Bool
  | [], [] => false
  | [], _ :: _ => true
  | _ :: _, [] => false
  | a :: as, b :: bs =>
    if a < b then true else if b < a then false else charsLt as bs

/-- Python string `a <= b` (code-point lexicographic). -/
def pyStrLe (a b : String) : Bool := ! charsLt b.data a.data

/-- `load_history`: sort the globbed snapshot file names descending, take
the twelve most recent, parse each, silently dropping any file whose read
or parse raises.  `files` is the glob listing as (name, parse outcome)
pairs, `none` standing for a corrupt or unreadable file. -/
def load_history {α : Type} (files : List (String × Option α)) : List α :=
  let data_files := files.mergeSort (fun a b => pyStrLe b.1 a.1)
  (data_files.take 12).filterMap (fun f => f.2)

/-! ### Scheduler (`scheduler_loop.get_next_run`) -/

/-- A JST civil instant: day index plus time of day in microseconds
(`datetime.replace` keeps the date and comparisons are exact to the
microsecond). -/
structure LocalTime where
  day : Nat
  tod : Nat
deriving DecidableEq, Repr

/-- Microseconds per hour. -/
def USEC_PER_HOUR : Nat := 3600000000

/-- `SCHEDULE_HOURS = [6, 12, 16, 20]`. -/
def SCHEDULE_HOURS : List Nat := [6, 12, 16, 20]

/-- The candidate loop of `get_next_run`: `now.replace(hour=h, minute=0,
second=0, microsecond=0)` is strictly after `now` exactly when
`now.tod < h` hours; otherwise fall through to the first configured hour
tomorrow. -/
def next_run_aux (now : LocalTime) : List Nat → LocalTime
  | [] => { day := now.day + 1, tod := SCHEDULE_HOURS.headD 0 * USEC_PER_HOUR }
  | h :: rest =>
    if now.tod < h * USEC_PER_HOUR then { day := now.day, tod := h * USEC_PER_HOUR }
    else next_run_aux now rest

/-- `get_next_run`. -/
def get_next_run (now : LocalTime) : LocalTime := next_run_aux now SCHEDULE_HOURS

/-- Strict order on civil instants. -/
def lt_time (a b : LocalTime) : Prop :=
  a.day < b.day ∨ (a.day = b.day ∧ a.tod < b.tod)

/-! ### Sample inputs used by the concrete witnesses -/

/-- A fresh relevant entry with a link. -/
def sample_entry_one : Entry :=
  { title := "AI one", summary := "", link := some "u1", pubDate := some 100 }

/-- A relevant entry whose publication instant did not parse. -/
def sample_entry_two : Entry :=
  { title := "AI two", summary := "", link := some "u2", pubDate := none }

/-- A relevant entry sharing its url with `sample_entry_one`. -/
def sample_entry_dup : Entry :=
  { title := "AI three", summary := "", link := some "u1", pubDate := some 200 }

/-- A relevant entry older than the cutoff used in the witnesses. -/
def sample_entry_old : Entry :=
  { title := "AI old", summary := "", link := some "u4", pubDate := some 1 }

/-- Two feeds; at `now = 86450` the cutoff is 50. -/
def sample_feeds : List (String × List Entry) :=
  [("f1", [sample_entry_one, sample_entry_two]),
   ("f2", [sample_entry_dup, sample_entry_old])]

/-- A relevant entry with no link field. -/
def sample_nolink_one : Entry :=
  { title := "AI nolink one", summary := "", link := none, pubDate := some 90 }

/-- A second, distinct relevant entry with no link field. -/
def sample_nolink_two : Entry :=
  { title := "AI nolink two", summary := "", link := none, pubDate := some 80 }

/-- Two feeds each containing one linkless relevant article. -/
def sample_feeds_nolink : List (String × List Entry) :=
  [("g1", [sample_nolink_one]), ("g2", [sample_nolink_two])]

/-- The article produced from `sample_entry_one`. -/
def sample_article_one : Article :=
  { source := "f1", title := "AI one", url := "u1", summary := "",
    pubDt := some 100 }

/-- The article produced from `sample_entry_two`. -/
def sample_article_two : Article :=
  { source := "f1", title := "AI two", url := "u2", summary := "",
    pubDt := none }

/-- The article produced from `sample_nolink_one`. -/
def sample_article_nolink : Article :=
  { source := "g1", title := "AI nolink one", url := "", summary := "",
    pubDt := some 90 }

/-! ### Helper lemmas about the collection pipeline -/

theorem fresh_skip_iff (cutoff : Int) (e : Entry) :
    fresh_skip cutoff e = true ↔ ∃ d, e.pubDate = some d ∧ d < cutoff := by
  unfold fresh_skip
  cases h : e.pubDate with
  | none => simp
  | some d => simp

theorem mem_process_entries_le {feedName : String} {cutoff : Int} {mp : Nat} :
    ∀ (es : List Entry) (count : Nat) {a : Article},
      a ∈ process_entries feedName cutoff mp es count →
      ∀ d : Int, a.pubDt = some d → cutoff ≤ d := by
  intro es
  induction es with
  | nil => intro count a h; simp [process_entries] at h
  | cons e rest ih =>
    intro count a h d hd
    simp only [process_entries] at h
    split at h
    · simp at h
    · split at h
      · exact ih count h d hd
      · rename_i hfresh
        split at h
        · rcases List.mem_cons.mp h with h1 | h2
          · subst h1
            simp only at hd
            rw [fresh_skip, hd] at hfresh
            simp at hfresh
            omega
          · exact ih (count + 1) h2 d hd
        · exact ih count h d hd

theorem mem_dedup_aux : ∀ (seen : List String) (l : List Article) {a : Article},
    a ∈ dedup_aux seen l → a ∈ l := by
  intro seen l
  induction l generalizing seen with
  | nil => intro a h; simp [dedup_aux] at h
  | cons b rest ih =>
    intro a h
    rw [dedup_aux] at h
    split at h
    · exact List.mem_cons_of_mem _ (ih seen h)
    · rcases List.mem_cons.mp h with h1 | h2
      · exact h1 ▸ List.mem_cons_self _ _
      · exact List.mem_cons_of_mem _ (ih _ h2)

theorem dedup_aux_url_not_mem : ∀ (seen : List String) (l : List Article) {a : Article},
    a ∈ dedup_aux seen l → a.url ∉ seen := by
  intro seen l
  induction l generalizing seen with
  | nil => intro a h; simp [dedup_aux] at h
  | cons b rest ih =>
    intro a h
    rw [dedup_aux] at h
    split at h
    · exact ih seen h
    · rename_i hb
      rcases List.mem_cons.mp h with h1 | h2
      · subst h1; exact hb
      · intro hmem
        exact ih _ h2 (List.mem_cons_of_mem _ hmem)

theorem dedup_aux_pairwise : ∀ (seen : List String) (l : List Article),
    (dedup_aux seen l).Pairwise (fun a b => a.url ≠ b.url) := by
  intro seen l
  induction l generalizing seen with
  | nil => simp [dedup_aux]
  | cons b rest ih =>
    rw [dedup_aux]
    split
    · exact ih seen
    · refine List.Pairwise.cons ?_ (ih _)
      intro a ha hEq
      have hnm := dedup_aux_url_not_mem _ _ ha
      exact hnm (hEq ▸ List.mem_cons_self _ _)

theorem dedup_aux_filter_not_mem :
    ∀ (seen : List String) (l : List Article) (u : String), u ∈ seen →
      (dedup_aux seen l).filter (fun a => a.url == u) = [] := by
  intro seen l
  induction l generalizing seen with
  | nil => intro u _; simp [dedup_aux]
  | cons b rest ih =>
    intro u hu
    rw [dedup_aux]
    split
    · exact ih seen u hu
    · rename_i hb
      have hbu : (b.url == u) = false := by
        apply beq_eq_false_iff_ne.mpr
        intro hEq; exact hb (hEq ▸ hu)
      rw [List.filter_cons_of_neg (by simp [hbu])]
      exact ih _ u (List.mem_cons_of_mem _ hu)

theorem dedup_aux_filter_take :
    ∀ (seen : List String) (l : List Article) (u : String), u ∉ seen →
      (dedup_aux seen l).filter (fun a => a.url == u) =
        (l.filter (fun a => a.url == u)).take 1 := by
  intro seen l
  induction l generalizing seen with
  | nil => intro u _; simp [dedup_aux]
  | cons b rest ih =>
    intro u hu
    rw [dedup_aux]
    split
    · rename_i hb
      have hbu : (b.url == u) = false := by
        apply beq_eq_false_iff_ne.mpr
        intro hEq; exact hu (hEq ▸ hb)
      rw [List.filter_cons_of_neg (by simp [hbu]), ih seen u hu]
    · rename_i hb
      by_cases hbu : b.url = u
      · subst hbu
        rw [List.filter_cons_of_pos (by simp), List.filter_cons_of_pos (by simp)]
        rw [dedup_aux_filter_not_mem _ _ b.url (List.mem_cons_self _ _)]
        simp
      · have hbu2 : (b.url == u) = false := beq_eq_false_iff_ne.mpr hbu
        rw [List.filter_cons_of_neg (by simp [hbu2]),
          List.filter_cons_of_neg (by simp [hbu2])]
        refine ih _ u ?_
        intro hmem
        rcases List.mem_cons.mp hmem with h1 | h2
        · exact hbu h1.symm
        · exact hu h2

theorem fetch_articles_perm (now : Int) (mp : Nat)
    (feeds : List (String × List Entry)) :
    List.Perm (fetch_articles now mp feeds)
      (dedup_aux [] (collect_articles now mp feeds)) := by
  simp only [fetch_articles]
  exact List.mergeSort_perm _ _

theorem fetch_articles_filter_url (now : Int) (mp : Nat)
    (feeds : List (String × List Entry)) (u : String) :
    (fetch_articles now mp feeds).filter (fun a => a.url == u) =
      ((collect_articles now mp feeds).filter (fun a => a.url == u)).take 1 := by
  have hperm := (fetch_articles_perm now mp feeds).filter (fun a => a.url == u)
  rw [dedup_aux_filter_take [] _ u (by simp)] at hperm
  cases hcf : (collect_articles now mp feeds).filter (fun a => a.url == u) with
  | nil => rw [hcf] at hperm; simpa using hperm
  | cons x xs =>
    rw [hcf] at hperm
    simp only [List.take_succ_cons, List.take_zero] at hperm ⊢
    exact List.perm_singleton.mp hperm

theorem key_le_trans : ∀ {x y z : Option Int},
    key_le x y = true → key_le y z = true → key_le x z = true := by
  intro x y z h1 h2
  cases x <;> cases y <;> cases z <;> simp [key_le] at * <;> omega

theorem key_le_total : ∀ (x y : Option Int), key_le x y || key_le y x := by
  intro x y
  cases x <;> cases y <;> simp [key_le] <;> omega

theorem key_le_none : ∀ {x : Option Int}, key_le x none = true → x = none := by
  intro x h
  cases x with
  | none => rfl
  | some v => simp [key_le] at h

/-! ### C1 -/

/-- C1: every article surviving `fetch_articles` whose instant is known is
at least the cutoff (time of run minus 24 hours), and the freshness guard
fires exactly on entries with a known instant strictly older than the
cutoff — in particular never on an unknown instant. -/
theorem c1_freshness_filter (now : Int) (mp : Nat)
    (feeds : List (String × List Entry)) :
    (∀ a ∈ fetch_articles now mp feeds, ∀ d : Int, a.pubDt = some d →
        now - MAX_ARTICLE_AGE_HOURS * 3600 ≤ d)
    ∧ (∀ (cutoff : Int) (e : Entry),
        fresh_skip cutoff e = true ↔ ∃ d, e.pubDate = some d ∧ d < cutoff) := by
  constructor
  · intro a ha d hd
    have ha2 : a ∈ dedup_aux [] (collect_articles now mp feeds) :=
      ((fetch_articles_perm now mp feeds).mem_iff).mp ha
    have ha3 := mem_dedup_aux _ _ ha2
    simp only [collect_articles, List.mem_flatten, List.mem_map] at ha3
    obtain ⟨l, ⟨f, hf, rfl⟩, hal⟩ := ha3
    exact mem_process_entries_le f.2 0 hal d hd
  · exact fresh_skip_iff

/-- Witness for C1 at a concrete run: the fresh known-instant article is
in the output and satisfies the cutoff bound, and the guard fires on the
strictly-older entry. -/
theorem c1_freshness_filter_witness :
    sample_article_one ∈ fetch_articles 86450 5 sample_feeds
    ∧ (86450 : Int) - MAX_ARTICLE_AGE_HOURS * 3600 ≤ 100
    ∧ fresh_skip 50 sample_entry_old = true
    ∧ fresh_skip 50 sample_entry_two = false := by
  have h := c1_freshness_filter 86450 5 sample_feeds
  have hmem : sample_article_one ∈
      dedup_aux [] (collect_articles 86450 5 sample_feeds) := by decide
  have hmem2 := ((fetch_articles_perm 86450 5 sample_feeds).mem_iff).mpr hmem
  refine ⟨hmem2, h.1 _ hmem2 100 rfl,
    (h.2 50 sample_entry_old).mpr ⟨1, rfl, by decide⟩, by decide⟩

/-! ### C2 -/

/-- C2: the ranked output of `fetch_articles` has pairwise distinct urls,
and for every url the output retains exactly the first collected
occurrence (in source-processing order); later duplicates are gone. -/
theorem c2_dedup_by_url (now : Int) (mp : Nat)
    (feeds : List (String × List Entry)) :
    (fetch_articles now mp feeds).Pairwise (fun a b => a.url ≠ b.url)
    ∧ ∀ u : String,
        (fetch_articles now mp feeds).filter (fun a => a.url == u) =
          ((collect_articles now mp feeds).filter (fun a => a.url == u)).take 1 := by
  constructor
  · exact ((fetch_articles_perm now mp feeds).pairwise_iff
      (fun h => Ne.symm h)).mpr (dedup_aux_pairwise [] _)
  · exact fetch_articles_filter_url now mp feeds

/-- Witness for C2: with two collected articles sharing url `u1`, the
output keeps only the first one. -/
theorem c2_dedup_by_url_witness :
    (fetch_articles 86450 5 sample_feeds).filter (fun a => a.url == "u1") =
      [sample_article_one]
    ∧ ((collect_articles 86450 5 sample_feeds).filter
        (fun a => a.url == "u1")).length = 2 := by
  have h := (c2_dedup_by_url 86450 5 sample_feeds).2 "u1"
  exact ⟨by rw [h]; decide, by decide⟩

/-! ### C3 -/

/-- C3: the ranked output is sorted descending by the publication key
(unknown key least), so every unknown-instant article sits after every
known-instant article. -/
theorem c3_sorted_desc (now : Int) (mp : Nat)
    (feeds : List (String × List Entry)) :
    (fetch_articles now mp feeds).Pairwise (fun a b => key_le b.pubDt a.pubDt = true)
    ∧ (fetch_articles now mp feeds).Pairwise
        (fun a b => a.pubDt = none → b.pubDt = none) := by
  have hsorted : (fetch_articles now mp feeds).Pairwise
      (fun a b : Article => key_le b.pubDt a.pubDt = true) := by
    simp only [fetch_articles]
    exact @List.sorted_mergeSort Article
      (fun a b => key_le b.pubDt a.pubDt)
      (fun a b c h1 h2 => key_le_trans h2 h1)
      (fun a b => key_le_total b.pubDt a.pubDt) _
  refine ⟨hsorted, hsorted.imp ?_⟩
  intro a b h hn
  rw [hn] at h
  exact key_le_none h

/-- Witness for C3: the concrete ranked output is `[known 100, unknown]`:
descending, unknown at the tail. -/
theorem c3_sorted_desc_witness :
    (fetch_articles 86450 5 sample_feeds).Pairwise
      (fun a b => key_le b.pubDt a.pubDt = true)
    ∧ (fetch_articles 86450 5 sample_feeds).map (fun a => a.pubDt) =
        [some 100, none] := by
  have hd : dedup_aux [] (collect_articles 86450 5 sample_feeds) =
      [sample_article_one, sample_article_two] := by decide
  have hs : fetch_articles 86450 5 sample_feeds =
      [sample_article_one, sample_article_two] := by
    simp only [fetch_articles]
    rw [hd]
    exact List.mergeSort_of_sorted (by decide)
  exact ⟨(c3_sorted_desc 86450 5 sample_feeds).1, by rw [hs]; rfl⟩

/-! ### C10 -/

/-- C10: an accepted entry with no link field yields the empty-string url,
and the output never carries more than one empty-url article: the first
collected linkless article wins and all later ones are discarded. -/
theorem c10_missing_link_url (now : Int) (mp : Nat)
    (feeds : List (String × List Entry)) :
    (∀ (feedName : String) (cutoff : Int) (e : Entry) (rest : List Entry)
        (count : Nat), e.link = none → ¬ mp ≤ count →
        fresh_skip cutoff e = false →
        is_ai_related e.title (pyTake (strip_tags e.summary) 500) = true →
        process_entries feedName cutoff mp (e :: rest) count =
          { source := feedName, title := e.title, url := "",
            summary := pyTake (strip_tags e.summary) 500, pubDt := e.pubDate } ::
            process_entries feedName cutoff mp rest (count + 1))
    ∧ (fetch_articles now mp feeds).countP (fun a => a.url == "") ≤ 1
    ∧ (fetch_articles now mp feeds).filter (fun a => a.url == "") =
        ((collect_articles now mp feeds).filter (fun a => a.url == "")).take 1 := by
  refine ⟨?_, ?_, fetch_articles_filter_url now mp feeds ""⟩
  · intro fn cutoff e rest count hlink hc hf hr
    simp only [process_entries, if_neg hc, hf, hr, hlink]
    simp
  · rw [List.countP_eq_length_filter, fetch_articles_filter_url]
    exact List.length_take_le 1 _

/-- Witness for C10: two distinct linkless relevant entries across two
sources; both are collected with url `""`, only the first survives. -/
theorem c10_missing_link_url_witness :
    ((collect_articles 86450 5 sample_feeds_nolink).filter
        (fun a => a.url == "")).length = 2
    ∧ fetch_articles 86450 5 sample_feeds_nolink = [sample_article_nolink]
    ∧ (fetch_articles 86450 5 sample_feeds_nolink).countP
        (fun a => a.url == "") ≤ 1
    ∧ process_entries "g1" 50 5 [sample_nolink_one] 0 =
        [sample_article_nolink] := by
  have h := c10_missing_link_url 86450 5 sample_feeds_nolink
  have hd : dedup_aux [] (collect_articles 86450 5 sample_feeds_nolink) =
      [sample_article_nolink] := by decide
  have hs : fetch_articles 86450 5 sample_feeds_nolink =
      [sample_article_nolink] := by
    simp only [fetch_articles]
    rw [hd]
    exact List.mergeSort_of_sorted (by decide)
  refine ⟨by decide, hs, h.2.1, ?_⟩
  have h1 := h.1 "g1" 50 sample_nolink_one [] 0 rfl (by omega) (by decide) (by decide)
  rw [h1]
  decide

/-! ### Helper lemmas about the candidate loop -/

theorem try_models_quota_skip (att : String → Except String Summary) :
    ∀ (pre rest : List String),
      (∀ m ∈ pre, ∃ msg, att m = Except.error msg ∧ is_quota_error msg = true) →
      try_models att (pre ++ rest) =
        ((try_models att rest).1, pre ++ (try_models att rest).2) := by
  intro pre
  induction pre with
  | nil => intro rest _; simp
  | cons m pre ih =>
    intro rest h
    obtain ⟨msg, hm, hq⟩ := h m (List.mem_cons_self _ _)
    have ihr := ih rest (fun m2 hm2 => h m2 (List.mem_cons_of_mem _ hm2))
    rw [List.cons_append, try_models, hm]
    simp only [hq, if_true, ihr, List.cons_append]

theorem try_models_take (att : String → Except String Summary) :
    ∀ models : List String, ∃ k, (try_models att models).2 = models.take k := by
  intro models
  induction models with
  | nil => exact ⟨0, rfl⟩
  | cons m rest ih =>
    cases hm : att m with
    | ok r => exact ⟨1, by simp [try_models, hm]⟩
    | error msg =>
      by_cases hq : is_quota_error msg = true
      · obtain ⟨k, hk⟩ := ih
        exact ⟨k + 1, by simp [try_models, hm, hq, hk]⟩
      · exact ⟨1, by simp [try_models, hm, hq]⟩

/-! ### C4 -/

/-- C4: with a configured key, the candidate loop of
`summarize_with_gemini` invokes a prefix of the fixed priority list, one
attempt each; when every candidate before `m` failed with a quota
signature, a success at `m` is returned immediately with no later
candidate invoked, and a non-quota failure at `m` aborts the loop (the
deterministic fallback is returned) with no later candidate invoked. -/
theorem c4_candidate_loop (apiKey : String) (hkey : apiKey ≠ "")
    (call : String → Except String String)
    (decode : String → Except String Summary) (articles : List Article) :
    (∃ k, (try_models (attempt_model call decode) models_to_try).2 =
        models_to_try.take k)
    ∧ ∀ (pre : List String) (m : String) (post : List String),
        models_to_try = pre ++ m :: post →
        (∀ m2 ∈ pre, ∃ msg, attempt_model call decode m2 = Except.error msg ∧
            is_quota_error msg = true) →
        ((∀ r, attempt_model call decode m = Except.ok r →
            summarize_with_gemini apiKey call decode articles = r ∧
            (try_models (attempt_model call decode) models_to_try).2 =
              pre ++ [m])
         ∧ (∀ msg, attempt_model call decode m = Except.error msg →
            is_quota_error msg = false →
            summarize_with_gemini apiKey call decode articles =
              dummy_summary articles ∧
            (try_models (attempt_model call decode) models_to_try).2 =
              pre ++ [m])) := by
  refine ⟨try_models_take _ models_to_try, ?_⟩
  intro pre m post hmodels hpre
  have hskip := try_models_quota_skip (attempt_model call decode) pre
    (m :: post) hpre
  constructor
  · intro r hok
    have hstep : try_models (attempt_model call decode) (m :: post) =
        (some r, [m]) := by
      simp [try_models, hok]
    have hval : (try_models (attempt_model call decode) models_to_try).1 =
        some r := by
      rw [hmodels, hskip, hstep]
    have htr : (try_models (attempt_model call decode) models_to_try).2 =
        pre ++ [m] := by
      rw [hmodels, hskip, hstep]
    refine ⟨?_, htr⟩
    rw [summarize_with_gemini, if_neg hkey, hval]
  · intro msg herr hq
    have hstep : try_models (attempt_model call decode) (m :: post) =
        (none, [m]) := by
      simp [try_models, herr, hq]
    have hval : (try_models (attempt_model call decode) models_to_try).1 =
        (none : Option Summary) := by
      rw [hmodels, hskip, hstep]
    have htr : (try_models (attempt_model call decode) models_to_try).2 =
        pre ++ [m] := by
      rw [hmodels, hskip, hstep]
    refine ⟨?_, htr⟩
    rw [summarize_with_gemini, if_neg hkey, hval]

/-- A backend where the first candidate hits a rate limit and every other
candidate answers an empty JSON object. -/
def sample_call_quota : String → Except String String :=
  fun m => if m = "gemini-2.0-flash" then Except.error "429 rate limit"
    else Except.ok "\x7b\x7d"

/-- A backend whose every call fails with a non-quota transport error. -/
def sample_call_fail : String → Except String String :=
  fun _ => Except.error "boom"

/-- A fixed parsed summary. -/
def sample_summary : Summary :=
  { news_summary := "n", opinion_summary := "o",
    sentiment := { positive := "p", negative := "q", neutral := "r" },
    top_articles := [], joho_picks := [] }

/-- A decoder accepting anything as `sample_summary`. -/
def sample_decode_ok : String → Except String Summary :=
  fun _ => Except.ok sample_summary

/-- Witness for C4: quota on A then success on B returns B's parse and
never invokes C; a non-quota failure on A stops at A with the fallback. -/
theorem c4_candidate_loop_witness :
    summarize_with_gemini "k" sample_call_quota sample_decode_ok [] =
      sample_summary
    ∧ (try_models (attempt_model sample_call_quota sample_decode_ok)
        models_to_try).2 = ["gemini-2.0-flash", "gemini-2.0-flash-lite"]
    ∧ "gemini-2.5-flash" ∉
        (try_models (attempt_model sample_call_quota sample_decode_ok)
          models_to_try).2
    ∧ summarize_with_gemini "k" sample_call_fail sample_decode_ok [] =
        dummy_summary []
    ∧ (try_models (attempt_model sample_call_fail sample_decode_ok)
        models_to_try).2 = ["gemini-2.0-flash"] := by
  have h1 := (c4_candidate_loop "k" (by decide) sample_call_quota
    sample_decode_ok []).2 ["gemini-2.0-flash"] "gemini-2.0-flash-lite"
    ["gemini-2.5-flash", "gemini-flash-lite-latest"] rfl
    (by
      intro m2 hm2
      simp only [List.mem_singleton] at hm2
      subst hm2
      exact ⟨"429 rate limit", rfl, by decide⟩)
  have h2 := (c4_candidate_loop "k" (by decide) sample_call_fail
    sample_decode_ok []).2 [] "gemini-2.0-flash"
    ["gemini-2.0-flash-lite", "gemini-2.5-flash", "gemini-flash-lite-latest"]
    rfl (by intro m2 hm2; simp at hm2)
  obtain ⟨hok, htr⟩ := h1.1 sample_summary rfl
  obtain ⟨hfb, htr2⟩ := h2.2 "boom" rfl (by decide)
  refine ⟨hok, htr, ?_, hfb, by simpa using htr2⟩
  rw [htr]
  decide

/-! ### C5 -/

theorem dummy_top_articles_length : ∀ (l : List Article) (k : Nat),
    (dummy_top_articles k l).length = l.length := by
  intro l
  induction l with
  | nil => intro k; rfl
  | cons a l ih => intro k; simp [dummy_top_articles, ih]

theorem dummy_top_articles_get : ∀ (l : List Article) (k i : Nat)
    (h : i < (dummy_top_articles k l).length),
    ∃ h2 : i < l.length, (dummy_top_articles k l).get ⟨i, h⟩ =
      { rank := k + i, title := (l.get ⟨i, h2⟩).title,
        source := (l.get ⟨i, h2⟩).source, url := (l.get ⟨i, h2⟩).url,
        point := pyTake (l.get ⟨i, h2⟩).summary 50 ++ "..." } := by
  intro l
  induction l with
  | nil => intro k i h; simp [dummy_top_articles] at h
  | cons a l ih =>
    intro k i h
    cases i with
    | zero => exact ⟨by simp, by simp [dummy_top_articles]⟩
    | succ i =>
      have hlen : i < (dummy_top_articles (k + 1) l).length := by
        simpa [dummy_top_articles] using h
      obtain ⟨h2, hget⟩ := ih (k + 1) i hlen
      refine ⟨by simpa using Nat.succ_lt_succ h2, ?_⟩
      have harith : k + 1 + i = k + (i + 1) := by omega
      simpa [dummy_top_articles, harith] using hget

/-- C5: an empty API key, or an aborted or exhausted candidate loop,
yields the deterministic fallback; the fallback's topArticles list has
`min 10 count` entries with ranks assigned in order, each pointing at the
corresponding ranked article with its truncated summary as the point, and
the digest, opinion, and sentiment fields are fixed placeholder text.  As
a total Lean function, `summarize_with_gemini` returns this value rather
than raising. -/
theorem c5_fallback (call : String → Except String String)
    (decode : String → Except String Summary) (articles : List Article) :
    summarize_with_gemini "" call decode articles = dummy_summary articles
    ∧ (∀ apiKey : String, apiKey ≠ "" →
        (try_models (attempt_model call decode) models_to_try).1 = none →
        summarize_with_gemini apiKey call decode articles =
          dummy_summary articles)
    ∧ (dummy_summary articles).top_articles.length = min 10 articles.length
    ∧ (∀ (i : Nat) (h : i < (dummy_summary articles).top_articles.length),
        ∃ h2 : i < articles.length,
          (dummy_summary articles).top_articles.get ⟨i, h⟩ =
            { rank := i + 1, title := (articles.get ⟨i, h2⟩).title,
              source := (articles.get ⟨i, h2⟩).source,
              url := (articles.get ⟨i, h2⟩).url,
              point := pyTake (articles.get ⟨i, h2⟩).summary 50 ++ "..." })
    ∧ (dummy_summary articles).news_summary =
        "【テストモード】APIキーが設定されていないため、実際の要約は生成されていません。GEMINI_API_KEY環境変数を設定してください。収集された記事のタイトルのみ表示しています。"
    ∧ (dummy_summary articles).sentiment =
        { positive := "APIキー設定後に自動生成されます",
          negative := "APIキー設定後に自動生成されます",
          neutral := "APIキー設定後に自動生成されます" } := by
  refine ⟨by rw [summarize_with_gemini, if_pos rfl], ?_, ?_, ?_, rfl, rfl⟩
  · intro apiKey hkey hnone
    rw [summarize_with_gemini, if_neg hkey, hnone]
  · simp [dummy_summary, dummy_top_articles_length]
  · intro i h
    have hlen : i < (articles.take 10).length := by
      simpa [dummy_summary, dummy_top_articles_length] using h
    obtain ⟨h2, hget⟩ := dummy_top_articles_get (articles.take 10) 1 i
      (by simpa [dummy_summary] using h)
    have h3 : i < articles.length := by
      simp at hlen
      omega
    refine ⟨h3, ?_⟩
    have htk : (articles.take 10).get ⟨i, h2⟩ = articles.get ⟨i, h3⟩ := by
      simp [List.get_eq_getElem]
    have harith : 1 + i = i + 1 := by omega
    calc (dummy_summary articles).top_articles.get ⟨i, h⟩
        = (dummy_top_articles 1 (articles.take 10)).get
            ⟨i, by simpa [dummy_summary] using h⟩ := rfl
      _ = _ := by rw [hget, htk, harith]

/-- The three sample articles, ranked. -/
def sample_articles3 : List Article :=
  [sample_article_one, sample_article_two, sample_article_nolink]

/-- Witness for C5: with no key the fallback is returned; with a key but
an always-failing backend the fallback is returned; the fallback carries
`min 10 3 = 3` top articles. -/
theorem c5_fallback_witness :
    summarize_with_gemini "" sample_call_fail sample_decode_ok
      sample_articles3 = dummy_summary sample_articles3
    ∧ summarize_with_gemini "k" sample_call_fail sample_decode_ok
        sample_articles3 = dummy_summary sample_articles3
    ∧ (dummy_summary sample_articles3).top_articles.length =
        min 10 sample_articles3.length := by
  have h := c5_fallback sample_call_fail sample_decode_ok sample_articles3
  exact ⟨h.1, h.2.1 "k" (by decide) (by decide), h.2.2.1⟩

/-! ### C6 -/

/-- The backtick character, head of both fence patterns. -/
def btick : Char := Char.ofNat 96

theorem subDelWsAux_no_btick (pat : List Char) (hp : pat.head? = some btick) :
    ∀ (fuel : Nat) (cs : List Char), (∀ c ∈ cs, c ≠ btick) →
      subDelWsAux pat fuel cs = cs := by
  intro fuel
  induction fuel with
  | zero =>
    intro cs _
    cases cs with
    | nil => rfl
    | cons c cs2 => rfl
  | succ fuel ih =>
    intro cs h
    cases cs with
    | nil => rfl
    | cons c cs2 =>
      have hc : c ≠ btick := h c (List.mem_cons_self _ _)
      rw [subDelWsAux]
      rw [if_neg ?_]
      · rw [ih cs2 (fun c2 hc2 => h c2 (List.mem_cons_of_mem _ hc2))]
      · rintro ⟨hne, hpre⟩
        cases pat with
        | nil => exact hne rfl
        | cons p ps =>
          simp only [List.head?_cons, Option.some.injEq] at hp
          rw [List.isPrefixOf] at hpre
          have hpc : p = c := by
            have := Bool.and_elim_left hpre
            exact eq_of_beq this
          exact hc (hpc ▸ hp ▸ rfl)

theorem subDelWs_no_btick (pat : List Char) (hp : pat.head? = some btick)
    (cs : List Char) (h : ∀ c ∈ cs, c ≠ btick) : subDelWs pat cs = cs :=
  subDelWsAux_no_btick pat hp cs.length cs h

theorem strip_fences_no_btick (cs : List Char) (h : ∀ c ∈ cs, c ≠ btick) :
    strip_fences cs = cs := by
  rw [strip_fences, subDelWs_no_btick "```json".data (by decide) cs h,
    subDelWs_no_btick "```".data (by decide) cs h]

theorem dropWhile_append_all {p : Char → Bool} :
    ∀ (l1 l2 : List Char), (∀ c ∈ l1, p c = true) →
      List.dropWhile p (l1 ++ l2) = List.dropWhile p l2 := by
  intro l1
  induction l1 with
  | nil => intro l2 _; rfl
  | cons c cs ih =>
    intro l2 h
    rw [List.cons_append, List.dropWhile_cons,
      if_pos (h c (List.mem_cons_self _ _)),
      ih l2 (fun c2 hc2 => h c2 (List.mem_cons_of_mem _ hc2))]

theorem bal_check_last : ∀ (rest : List Char) (depth : Nat),
    bal_check rest depth = true → ∃ init, rest = init ++ [cbr] := by
  intro rest
  induction rest with
  | nil => intro depth h; simp [bal_check] at h
  | cons c rs ih =>
    intro depth h
    rw [bal_check] at h
    by_cases h1 : c = obr
    · rw [if_pos h1] at h
      obtain ⟨init, hi⟩ := ih _ h
      exact ⟨c :: init, by rw [hi, List.cons_append]⟩
    · rw [if_neg h1] at h
      by_cases h2 : c = cbr
      · rw [if_pos h2] at h
        by_cases h3 : depth = 1
        · rw [if_pos h3] at h
          have : rs = [] := by simpa using h
          exact ⟨[], by rw [this, h2]; rfl⟩
        · rw [if_neg h3] at h
          obtain ⟨init, hi⟩ := ih _ h
          exact ⟨c :: init, by rw [hi, List.cons_append]⟩
      · rw [if_neg h2] at h
        obtain ⟨init, hi⟩ := ih _ h
        exact ⟨c :: init, by rw [hi, List.cons_append]⟩

theorem first_balanced_aux_append :
    ∀ (rest : List Char) (depth : Nat) (acc tail : List Char),
      bal_check rest depth = true →
      first_balanced_aux (rest ++ tail) depth acc =
        some (acc.reverse ++ rest) := by
  intro rest
  induction rest with
  | nil => intro depth acc tail h; simp [bal_check] at h
  | cons c rs ih =>
    intro depth acc tail h
    rw [bal_check] at h
    rw [List.cons_append, first_balanced_aux]
    by_cases h1 : c = obr
    · rw [if_pos h1] at h ⊢
      rw [ih (depth + 1) (c :: acc) tail h]
      simp
    · rw [if_neg h1] at h ⊢
      by_cases h2 : c = cbr
      · rw [if_pos h2] at h ⊢
        by_cases h3 : depth = 1
        · rw [if_pos h3] at h ⊢
          have : rs = [] := by simpa using h
          subst this
          simp
        · rw [if_neg h3] at h ⊢
          rw [ih (depth - 1) (c :: acc) tail h]
          simp
      · rw [if_neg h2] at h ⊢
        rw [ih depth (c :: acc) tail h]
        simp

/-- C6 counterexample: for the response text consisting of the
well-formed object followed by the trailing text ` tail\x7d`, the code's
extraction (greedy to the last close brace) is not the first balanced
object — the extracted span is the whole text, which is not even
brace-balanced, so a JSON parse of it must fail. -/
theorem c6_counterexample :
    strip_fences "\x7b\"a\": 1\x7d tail\x7d".data =
      "\x7b\"a\": 1\x7d tail\x7d".data
    ∧ spec_first_balanced "\x7b\"a\": 1\x7d tail\x7d".data =
        some "\x7b\"a\": 1\x7d".data
    ∧ extract_json_span "\x7b\"a\": 1\x7d tail\x7d".data =
        some "\x7b\"a\": 1\x7d tail\x7d".data
    ∧ extract_json_span "\x7b\"a\": 1\x7d tail\x7d".data ≠
        spec_first_balanced "\x7b\"a\": 1\x7d tail\x7d".data
    ∧ is_balanced_object "\x7b\"a\": 1\x7d tail\x7d".data = false := by
  decide

/-- C6 amended: the extraction strips fence wrappers and then takes the
greedy span from the first open brace to the last close brace; for a
response that is a balanced JSON object followed by trailing text, the
extracted span is exactly that first balanced object provided the
trailing text contains no close brace (and the text no fence backtick) —
with a close brace in the trailing text the span overruns the object, as
the counterexample shows. -/
theorem c6_extraction_amended (obj tail : List Char)
    (hobj : is_balanced_object obj = true)
    (htail : ∀ c ∈ tail, c ≠ cbr)
    (hbt : ∀ c ∈ obj ++ tail, c ≠ btick) :
    extract_json_span (obj ++ tail) = some obj
    ∧ spec_first_balanced (obj ++ tail) = some obj := by
  cases obj with
  | nil => simp [is_balanced_object] at hobj
  | cons c rest =>
    rw [is_balanced_object, Bool.and_eq_true] at hobj
    obtain ⟨hc, hbal⟩ := hobj
    have hc2 : c = obr := by simpa using hc
    subst hc2
    have hdw : (obr :: (rest ++ tail)).dropWhile (fun c => c ≠ obr) =
        obr :: (rest ++ tail) := by
      rw [List.dropWhile_cons]
      simp
    constructor
    · obtain ⟨init, hrest⟩ := bal_check_last rest 1 hbal
      have hsplit : (rest ++ tail).reverse =
          tail.reverse ++ (cbr :: init.reverse) := by
        rw [hrest]
        simp
      have hall : ∀ c ∈ tail.reverse,
          (fun c => decide (c ≠ cbr)) c = true := by
        intro c hcm
        have := htail c (List.mem_reverse.mp hcm)
        simpa using this
      have hrev : (rest ++ tail).reverse.dropWhile (fun c => c ≠ cbr) =
          cbr :: init.reverse := by
        rw [hsplit, dropWhile_append_all tail.reverse _ hall,
          List.dropWhile_cons]
        simp
      rw [extract_json_span, strip_fences_no_btick _ hbt, List.cons_append,
        regex_brace_match, hdw]
      simp only [hrev]
      simp [hrest]
    · rw [spec_first_balanced, List.cons_append, hdw]
      show first_balanced_aux (rest ++ tail) 1 [obr] = some (obr :: rest)
      rw [first_balanced_aux_append rest 1 [obr] tail hbal]
      simp

/-- Witness for the amended C6: a balanced object followed by brace-free
trailing text is extracted exactly. -/
theorem c6_extraction_amended_witness :
    extract_json_span ("\x7b\"a\": 1\x7d".data ++ " tail".data) =
      some "\x7b\"a\": 1\x7d".data
    ∧ spec_first_balanced ("\x7b\"a\": 1\x7d".data ++ " tail".data) =
        some "\x7b\"a\": 1\x7d".data :=
  c6_extraction_amended "\x7b\"a\": 1\x7d".data " tail".data
    (by decide) (by decide) (by decide)

/-! ### C7 -/

/-- C7: every run of `save_data` performs exactly two writes, one
timestamped snapshot file and the unconditionally (re)written latest
file, and both carry the same serialized content — the same data
serialized by the same `dumps`. -/
theorem c7_save_identical (dumps : RunData → String) (nowIso stamp : String)
    (hour : Nat) (summary : Summary) (articles : List Article) :
    ∃ content, save_data dumps nowIso stamp hour summary articles =
      [("news_" ++ stamp ++ ".json", content), ("latest.json", content)] :=
  ⟨_, rfl⟩

/-! ### C8 -/

/-- C8: `load_history` reads the lexically most recent 12 snapshot files
and parses each, silently dropping corrupt or unreadable ones: on a
listing already sorted most-recent-first it returns exactly the parses of
the first 12 entries, and it never yields more than 12 entries. -/
theorem c8_history {α : Type} (files : List (String × Option α)) :
    (files.Pairwise (fun a b => pyStrLe b.1 a.1 = true) →
      load_history files = (files.take 12).filterMap (fun f => f.2))
    ∧ (load_history files).length ≤ 12 := by
  constructor
  · intro hsorted
    rw [load_history]
    rw [List.mergeSort_of_sorted hsorted]
  · rw [load_history]
    have h1 := List.length_filterMap_le (fun f : String × Option α => f.2)
      ((files.mergeSort (fun a b => pyStrLe b.1 a.1)).take 12)
    have h2 := List.length_take_le 12
      (files.mergeSort (fun a b => pyStrLe b.1 a.1))
    omega

/-- Twelve snapshot files, most recent first; the seventh is corrupt. -/
def sample_history_files : List (String × Option Nat) :=
  [("news_20240112_0600.json", some 12), ("news_20240111_0600.json", some 11),
   ("news_20240110_0600.json", some 10), ("news_20240109_0600.json", some 9),
   ("news_20240108_0600.json", some 8), ("news_20240107_0600.json", some 7),
   ("news_20240106_0600.json", none), ("news_20240105_0600.json", some 5),
   ("news_20240104_0600.json", some 4), ("news_20240103_0600.json", some 3),
   ("news_20240102_0600.json", some 2), ("news_20240101_0600.json", some 1)]

/-- Witness for C8: over 12 files with the 7th corrupted, history holds
the other 11 entries in most-recent-first order. -/
theorem c8_history_witness :
    load_history sample_history_files = [12, 11, 10, 9, 8, 7, 5, 4, 3, 2, 1]
    ∧ (load_history sample_history_files).length = 11 := by
  have h := (c8_history sample_history_files).1 (by decide)
  rw [h]
  exact ⟨rfl, rfl⟩

/-! ### C9 -/

/-- C9: `get_next_run` returns a configured trigger instant strictly
after now — today's earliest configured time still ahead, or, when every
configured time has passed, the first configured time tomorrow. -/
theorem c9_next_trigger (now : LocalTime) :
    lt_time now (get_next_run now)
    ∧ (∃ h ∈ SCHEDULE_HOURS, (get_next_run now).tod = h * USEC_PER_HOUR)
    ∧ (∀ h ∈ SCHEDULE_HOURS, now.tod < h * USEC_PER_HOUR →
        (get_next_run now).day = now.day ∧
        (get_next_run now).tod ≤ h * USEC_PER_HOUR)
    ∧ ((∀ h ∈ SCHEDULE_HOURS, h * USEC_PER_HOUR ≤ now.tod) →
        get_next_run now = { day := now.day + 1, tod := 6 * USEC_PER_HOUR }) := by
  by_cases h6 : now.tod < 6 * USEC_PER_HOUR
  · have hg : get_next_run now = { day := now.day, tod := 6 * USEC_PER_HOUR } := by
      simp [get_next_run, SCHEDULE_HOURS, next_run_aux, h6]
    rw [hg]
    refine ⟨Or.inr ⟨rfl, h6⟩, ⟨6, by simp [SCHEDULE_HOURS]⟩, ?_, ?_⟩
    · intro h hmem _
      refine ⟨rfl, ?_⟩
      simp only [SCHEDULE_HOURS, List.mem_cons, List.mem_nil_iff, or_false] at hmem
      rcases hmem with rfl | rfl | rfl | rfl <;>
        simp [USEC_PER_HOUR] <;> omega
    · intro hall
      have := hall 6 (by simp [SCHEDULE_HOURS])
      omega
  · by_cases h12 : now.tod < 12 * USEC_PER_HOUR
    · have hg : get_next_run now =
          { day := now.day, tod := 12 * USEC_PER_HOUR } := by
        simp [get_next_run, SCHEDULE_HOURS, next_run_aux, h6, h12]
      rw [hg]
      refine ⟨Or.inr ⟨rfl, h12⟩, ⟨12, by simp [SCHEDULE_HOURS]⟩, ?_, ?_⟩
      · intro h hmem hlt
        refine ⟨rfl, ?_⟩
        simp only [SCHEDULE_HOURS, List.mem_cons, List.mem_nil_iff, or_false] at hmem
        rcases hmem with rfl | rfl | rfl | rfl <;>
          simp [USEC_PER_HOUR] at * <;> omega
      · intro hall
        have := hall 12 (by simp [SCHEDULE_HOURS])
        omega
    · by_cases h16 : now.tod < 16 * USEC_PER_HOUR
      · have hg : get_next_run now =
            { day := now.day, tod := 16 * USEC_PER_HOUR } := by
          simp [get_next_run, SCHEDULE_HOURS, next_run_aux, h6, h12, h16]
        rw [hg]
        refine ⟨Or.inr ⟨rfl, h16⟩, ⟨16, by simp [SCHEDULE_HOURS]⟩, ?_, ?_⟩
        · intro h hmem hlt
          refine ⟨rfl, ?_⟩
          simp only [SCHEDULE_HOURS, List.mem_cons, List.mem_nil_iff, or_false] at hmem
          rcases hmem with rfl | rfl | rfl | rfl <;>
            simp [USEC_PER_HOUR] at * <;> omega
        · intro hall
          have := hall 16 (by simp [SCHEDULE_HOURS])
          omega
      · by_cases h20 : now.tod < 20 * USEC_PER_HOUR
        · have hg : get_next_run now =
              { day := now.day, tod := 20 * USEC_PER_HOUR } := by
            simp [get_next_run, SCHEDULE_HOURS, next_run_aux, h6, h12, h16, h20]
          rw [hg]
          refine ⟨Or.inr ⟨rfl, h20⟩, ⟨20, by simp [SCHEDULE_HOURS]⟩, ?_, ?_⟩
          · intro h hmem hlt
            refine ⟨rfl, ?_⟩
            simp only [SCHEDULE_HOURS, List.mem_cons, List.mem_nil_iff, or_false] at hmem
            rcases hmem with rfl | rfl | rfl | rfl <;>
              simp [USEC_PER_HOUR] at * <;> omega
          · intro hall
            have := hall 20 (by simp [SCHEDULE_HOURS])
            omega
        · have hg : get_next_run now =
              { day := now.day + 1, tod := 6 * USEC_PER_HOUR } := by
            simp [get_next_run, SCHEDULE_HOURS, next_run_aux, h6, h12, h16, h20]
          rw [hg]
          refine ⟨Or.inl (Nat.lt_succ_self _), ⟨6, by simp [SCHEDULE_HOURS]⟩, ?_, fun _ => rfl⟩
          intro h hmem hlt
          exfalso
          simp only [SCHEDULE_HOURS, List.mem_cons, List.mem_nil_iff, or_false] at hmem
          rcases hmem with rfl | rfl | rfl | rfl <;> omega

/-- Witness for C9: with triggers 06:00/12:00/16:00/20:00, at 21:00 the
next run is 06:00 the next day, and at 05:00 it is 06:00 the same day. -/
theorem c9_next_trigger_witness :
    get_next_run { day := 0, tod := 75600000000 } =
      { day := 1, tod := 21600000000 }
    ∧ get_next_run { day := 0, tod := 18000000000 } =
        { day := 0, tod := 21600000000 }
    ∧ lt_time { day := 0, tod := 18000000000 }
        (get_next_run { day := 0, tod := 18000000000 }) := by
  refine ⟨?_, by decide, (c9_next_trigger _).1⟩
  have h := (c9_next_trigger { day := 0, tod := 75600000000 }).2.2.2 (by decide)
  simpa [USEC_PER_HOUR] using h

end AINews
